import Mathlib

/-!
Verification of the hardhat-yul compilation pipeline (`src/compilation.ts`).

The pipeline compiles Yul (`*.yul`) and Yulp (`*.yulp`) sources with a solc
backend and synthesizes hardhat artifacts.  The embedding below translates the
pipeline functions of `compilation.ts` into Lean.  External collaborators
(the filesystem, the hardhat task runner, the solc backend handle obtained by
`getCompiler`, and the third-party `yulp` transpiler library) are modelled as
parameters: a discovered source file is a pair of its resolved source name and
its text, the backend is a function `CompilerInput → CompilerOutput`, and the
yulp library is a record of its `compile`/`print` functions.  JavaScript
runtime failures (a `TypeError` from dereferencing `undefined`, a parse error
thrown by `yulp.compile`) are modelled with `Except`.
-/

namespace HardhatYul

/-! ## Data model: solc output, compiler input, configuration -/

/-- One entry of solc's `output.errors` diagnostics array. -/
structure SolcDiagnosticEntry where
  severity : String
  formattedMessage : String
deriving Repr, DecidableEq

/-- The `evm.bytecode` object of a compiled contract. -/
structure BytecodeObject where
  object : String
deriving Repr, DecidableEq

/-- The `evm.deployedBytecode` object of a compiled contract, which solc may
omit; it optionally carries `functionDebugData`, modelled as an opaque
payload string. -/
structure DeployedBytecodeObject where
  object : String
  functionDebugData : Option String
deriving Repr, DecidableEq

/-- The `evm` member of a compiled contract object. -/
structure EvmOutput where
  bytecode : BytecodeObject
  deployedBytecode : Option DeployedBytecodeObject
deriving Repr, DecidableEq

/-- One compiled contract object in solc's output. -/
structure ContractObject where
  evm : EvmOutput
deriving Repr, DecidableEq

/-- Structured solc output: `contracts` maps a virtual filename to an ordered
object map (association list, in `Object.keys` order) of contract objects, and
`errors` is the diagnostics array. -/
structure CompilerOutput where
  contracts : List (String × List (String × ContractObject))
  errors : List SolcDiagnosticEntry
deriving Repr, DecidableEq

/-- One entry of the compiler input's `sources` map. -/
structure SourceEntry where
  content : String
deriving Repr, DecidableEq

/-- The `settings.optimizer.details` member of the compiler input; the
`yulDetails` flags come from the plugin configuration and are forwarded as an
opaque payload. -/
structure OptimizerDetails where
  yul : Bool
  yulDetails : String
deriving Repr, DecidableEq

/-- The `settings.optimizer` member of the compiler input. -/
structure OptimizerSettings where
  enabled : Bool
  runs : Nat
  details : OptimizerDetails
deriving Repr, DecidableEq

/-- The `settings` member of the compiler input; `outputSelection` is a nested
ordered object map. -/
structure CompilerSettings where
  outputSelection : List (String × List (String × List String))
  optimizer : OptimizerSettings
deriving Repr, DecidableEq

/-- The structured input descriptor sent to the solc backend. -/
structure CompilerInput where
  language : String
  sources : List (String × SourceEntry)
  settings : CompilerSettings
deriving Repr, DecidableEq

/-- The plugin configuration (`YulConfig` in `types.ts`): the requested solc
version and the opaque `yulDetails` optimizer flags. -/
structure YulConfig where
  version : String
  yulDetails : String
deriving Repr, DecidableEq

/-- JavaScript runtime failures observable from the pipeline: a generic
`TypeError` raised by dereferencing `undefined`, and a syntax error thrown by
the external `yulp.compile` parser.  `compilation.ts` itself constructs no
error values of its own. -/
inductive JsError where
  | typeError (message : String)
  | dialectSyntaxError (message : String)
deriving Repr, DecidableEq

deriving instance DecidableEq for Except

/-- A rendered diagnostic line, as `checkCompilationErrors` writes it to the
console: `console.error` lines and `console.warn` lines. -/
inductive DiagnosticReport where
  | errorReport (message : String)
  | warnReport (message : String)
deriving Repr, DecidableEq

/-! ## JavaScript string primitives

`pathToContractName` uses `String.prototype.indexOf` / `substring`, and the
yulp ABI synthesis uses `String.prototype.slice`; these are modelled on the
character list of the string with JavaScript's index normalisation. -/

/-- JavaScript `String.prototype.indexOf` restricted to a single-character
needle: the index of the first occurrence, or `-1` when absent. -/
def jsIndexOfList (c : Char) : List Char → Int
  | [] => -1
  | a :: l =>
    if a = c then 0
    else if jsIndexOfList c l < 0 then -1 else jsIndexOfList c l + 1

/-- `jsIndexOfList` on a string. -/
def jsIndexOf (s : String) (c : Char) : Int :=
  jsIndexOfList c s.toList

/-- JavaScript `substring` index normalisation: clamp into `[0, len]`
(negative values become `0` via `Int.toNat`). -/
def jsClamp (len : Nat) (i : Int) : Nat :=
  (min i (len : Int)).toNat

/-- JavaScript `String.prototype.substring`: both indexes are clamped into
`[0, len]` and swapped when out of order. -/
def jsSubstring (s : String) (start finish : Int) : String :=
  let a := jsClamp s.toList.length start
  let b := jsClamp s.toList.length finish
  ((s.toList.drop (min a b)).take (max a b - min a b)).asString

/-- JavaScript `slice` index normalisation: a negative index counts from the
end of the string. -/
def jsSliceIndex (len : Nat) (i : Int) : Nat :=
  if i < 0 then ((len : Int) + i).toNat else (min i (len : Int)).toNat

/-- JavaScript `String.prototype.slice` with both indexes given. -/
def jsSlice (s : String) (start finish : Int) : String :=
  let a := jsSliceIndex s.toList.length start
  let b := jsSliceIndex s.toList.length finish
  ((s.toList.drop a).take (b - a)).asString

/-- Node's `path.basename` for POSIX separators: the part of the path after
its last `/`.  The glob-discovered source paths the pipeline feeds it have no
trailing separator, which is the case modelled here. -/
def basename (file : String) : String :=
  ((file.toList.reverse.takeWhile fun c => decide (c ≠ '/')).reverse).asString

/-- `pathToContractName` from `compilation.ts`: the basename of the file,
truncated with `substring(0, basename.indexOf("."))`. -/
def pathToContractName (file : String) : String :=
  let sourceName := basename file
  jsSubstring sourceName 0 (jsIndexOf sourceName '.')

/-- Stated from the claim words only, for comparison with
`pathToContractName`: the file's basename without its extension, where the
extension is everything from the last dot on (a basename without a dot has no
extension to strip). -/
def basenameWithoutExtension (file : String) : String :=
  let b := (basename file).toList
  if '.' ∈ b then ((b.reverse.dropWhile fun c => decide (c ≠ '.')).tail.reverse).asString
  else b.asString

/-! ## Compiler invocation -/

/-- The compiler input descriptor both `_compileYul` and `_compileYulp` build:
language `"Yul"`, a single `"Target.yul"` source entry holding the
base-dialect text, full output selection, and the optimizer enabled with zero
runs and the configured `yulDetails` forwarded. -/
def mkCompilerInput (data : String) (yulDetails : String) : CompilerInput :=
  { language := "Yul"
    sources := [("Target.yul", { content := data })]
    settings :=
      { outputSelection := [("*", [("*", ["*"]), ("", ["*"])])]
        optimizer :=
          { enabled := true
            runs := 0
            details := { yul := true, yulDetails := yulDetails } } } }

/-- `checkCompilationErrors` from `compilation.ts`: renders one console line
per diagnostics entry — entries whose severity is not `"warning"` become
`console.error` lines, the rest become `console.warn` lines.  The function
only logs; the report list models the console output. -/
def checkCompilationErrors (filename : String) (errors : List SolcDiagnosticEntry) :
    List DiagnosticReport :=
  errors.map fun error =>
    if error.severity ≠ "warning" then
      DiagnosticReport.errorReport
        ("hardhat-yul: error compiling " ++ filename ++ ":\n" ++ error.formattedMessage)
    else
      DiagnosticReport.warnReport
        ("hardhat-yul: warning compiling " ++ filename ++ ":\n" ++ error.formattedMessage)

/-- The contract-object selection both `_compileYul` and `_compileYulp`
perform: `Object.keys(output.contracts["Target.yul"])` followed by indexing
with `contractObjects[0]`.  A missing `"Target.yul"` entry makes
`Object.keys(undefined)` throw, and an empty object map makes the subsequent
`undefined["evm"]` dereference throw; both are generic `TypeError`s. -/
def selectTargetContract (output : CompilerOutput) : Except JsError ContractObject :=
  match output.contracts.lookup "Target.yul" with
  | none => Except.error (JsError.typeError "Cannot convert undefined or null to object")
  | some targetContracts =>
    match (targetContracts.map Prod.fst).head? with
    | none => Except.error (JsError.typeError "Cannot read properties of undefined (reading evm)")
    | some firstKey =>
      match targetContracts.lookup firstKey with
      | none => Except.error (JsError.typeError "Cannot read properties of undefined (reading evm)")
      | some c => Except.ok c

/-- The intermediate object `_compileYul` / `_compileYulp` return: bytecode
strings, the ABI list, and (for the yul path) the optional debug data. -/
structure YulOutput where
  sourceName : String
  abi : List String
  bytecode : String
  deployedBytecode : String
  functionDebugData : Option String
deriving Repr, DecidableEq

/-- The output interpretation of `_compileYul` after the backend call: select
the first contract object, prefix its bytecode payload with `"0x"`, default
`deployedBytecode` to `"0x"` when the backend omitted the runtime object, and
read `functionDebugData` through the optional chain
`evm?.deployedBytecode?.functionDebugData`.  The yul path always returns an
empty ABI. -/
def processYulOutput (filename : String) (output : CompilerOutput) :
    Except JsError YulOutput :=
  match selectTargetContract output with
  | Except.error e => Except.error e
  | Except.ok c =>
    Except.ok
      { sourceName := filename
        abi := []
        bytecode := "0x" ++ c.evm.bytecode.object
        deployedBytecode :=
          match c.evm.deployedBytecode with
          | some d => "0x" ++ d.object
          | none => "0x"
        functionDebugData := c.evm.deployedBytecode.bind fun d => d.functionDebugData }

/-- `_compileYul` from `compilation.ts`: build the compiler input from the
file's text and the configured `yulDetails`, call the backend, log the
diagnostics, and interpret the output.  The console log and the returned
value are paired. -/
def _compileYulRun (filename : String) (data : String) (cfg : YulConfig)
    (compile : CompilerInput → CompilerOutput) :
    List DiagnosticReport × Except JsError YulOutput :=
  let output := compile (mkCompilerInput data cfg.yulDetails)
  (checkCompilationErrors filename output.errors, processYulOutput filename output)

/-- The value `_compileYul` returns (its console log projected away). -/
def _compileYul (filename : String) (data : String) (cfg : YulConfig)
    (compile : CompilerInput → CompilerOutput) : Except JsError YulOutput :=
  (_compileYulRun filename data cfg compile).2

/-! ## The yulp path -/

/-- One signature or topic entry of the yulp transpiler's side table; `abi` is
the raw signature text, framed like `sig"function add()"` for signatures and
`topic"event Done()"` for topics. -/
structure YulpSignature where
  abi : String
deriving Repr, DecidableEq

/-- The value `yulp.compile` returns: an opaque transform result (rendered to
base-dialect text by `yulp.print`) plus the side tables of declared function
signatures and event topics. -/
structure YulpCompileResult where
  results : String
  signatures : List YulpSignature
  topics : List YulpSignature
deriving Repr, DecidableEq

/-- The interface of the external third-party `yulp` library: `compile` parses
sugared-dialect text (and may throw a syntax error), `print` renders the
transform result to base-dialect text. -/
structure YulpLib where
  compile : String → Except JsError YulpCompileResult
  print : String → String

/-- The ABI synthesis of `_compileYulp`: each function signature's raw text
with its first 4 and last 1 characters stripped (`abi.slice(4, -1)`), followed
by each event topic's raw text with its first 6 and last 1 characters stripped
(`abi.slice(6, -1)`). -/
def yulpAbi (source : YulpCompileResult) : List String :=
  (source.signatures.map fun v => jsSlice v.abi 4 (-1)) ++
    (source.topics.map fun v => jsSlice v.abi 6 (-1))

/-- The output interpretation of `_compileYulp` after the backend call: the
same contract-object selection and bytecode handling as the yul path, plus the
synthesized ABI.  The object literal `_compileYulp` returns has no
`functionDebugData` property, so that field is always absent. -/
def processYulpOutput (filename : String) (source : YulpCompileResult)
    (output : CompilerOutput) : Except JsError YulOutput :=
  match selectTargetContract output with
  | Except.error e => Except.error e
  | Except.ok c =>
    Except.ok
      { sourceName := filename
        abi := yulpAbi source
        bytecode := "0x" ++ c.evm.bytecode.object
        deployedBytecode :=
          match c.evm.deployedBytecode with
          | some d => "0x" ++ d.object
          | none => "0x"
        functionDebugData := none }

/-- `_compileYulp` from `compilation.ts`: transpile the sugared text with the
yulp library, send the printed base-dialect text to the backend, log the
diagnostics, and interpret the output.  The console log and the returned
value are paired; a transpiler throw propagates before any backend call. -/
def _compileYulpRun (filename : String) (data : String) (cfg : YulConfig)
    (yulp : YulpLib) (compile : CompilerInput → CompilerOutput) :
    List DiagnosticReport × Except JsError YulOutput :=
  match yulp.compile data with
  | Except.error e => ([], Except.error e)
  | Except.ok source =>
    let output := compile (mkCompilerInput (yulp.print source.results) cfg.yulDetails)
    (checkCompilationErrors filename output.errors, processYulpOutput filename source output)

/-- The value `_compileYulp` returns (its console log projected away). -/
def _compileYulp (filename : String) (data : String) (cfg : YulConfig)
    (yulp : YulpLib) (compile : CompilerInput → CompilerOutput) :
    Except JsError YulOutput :=
  (_compileYulpRun filename data cfg yulp compile).2

/-! ## Artifact synthesis and the per-file loop -/

/-- The hardhat artifact record handed to
`artifacts.saveArtifactAndDebugFile`.  The unused link-reference maps are
modelled as ordered object maps so that their emptiness is statable. -/
structure Artifact where
  _format : String
  contractName : String
  sourceName : String
  abi : List String
  bytecode : String
  deployedBytecode : String
  linkReferences : List (String × String)
  deployedLinkReferences : List (String × String)
  functionDebugData : Option String
deriving Repr, DecidableEq

/-- `getArtifactFromYulOutput` from `compilation.ts`: wraps the intermediate
output into the artifact record.  Note that the source hardcodes `abi: []`
(with a FIXME comment) rather than copying `output.abi`, and copies
`output.functionDebugData` through. -/
def getArtifactFromYulOutput (sourceName : String) (output : YulOutput) : Artifact :=
  { _format := "hh-sol-artifact-1"
    contractName := pathToContractName sourceName
    sourceName := sourceName
    abi := []
    bytecode := output.bytecode
    deployedBytecode := output.deployedBytecode
    linkReferences := []
    deployedLinkReferences := []
    functionDebugData := output.functionDebugData }

/-- A discovered source file, as the per-file loop sees it: its resolved
source name (which `localPathToSourceName` derives from the path, and from
which `pathToContractName` derives the contract name) and its text (which
`fs.readFileSync` reads). -/
structure SourceFile where
  sourceName : String
  content : String
deriving Repr, DecidableEq

/-- The per-file step of the `compileYul` loop body: compile the file and wrap
the result into an artifact for the sink. -/
def compileYulStep (cfg : YulConfig) (compile : CompilerInput → CompilerOutput)
    (file : SourceFile) : Except JsError Artifact :=
  (_compileYul file.sourceName file.content cfg compile).map
    (getArtifactFromYulOutput file.sourceName)

/-- The per-file step of the `compileYulp` loop body. -/
def compileYulpStep (cfg : YulConfig) (yulp : YulpLib)
    (compile : CompilerInput → CompilerOutput) (file : SourceFile) :
    Except JsError Artifact :=
  (_compileYulp file.sourceName file.content cfg yulp compile).map
    (getArtifactFromYulOutput file.sourceName)

/-- The `for (const file of files)` loop of `compileYul` / `compileYulp`.
Each completed artifact is saved to the sink inside the loop; the loop body
has no try/catch, so a rejected promise on one file ends the whole async function:
the result is the list of artifacts saved before the failure, paired with the
error that escaped, if any. -/
def runPipeline (step : SourceFile → Except JsError Artifact) :
    List SourceFile → List Artifact × Option JsError
  | [] => ([], none)
  | file :: rest =>
    match step file with
    | Except.error e => ([], some e)
    | Except.ok artifact =>
      let r := runPipeline step rest
      (artifact :: r.1, r.2)

/-- `compileYul` from `compilation.ts`, with discovery, file reading, and the
backend supplied as data: run the per-file step over the discovered files. -/
def compileYul (cfg : YulConfig) (compile : CompilerInput → CompilerOutput)
    (files : List SourceFile) : List Artifact × Option JsError :=
  runPipeline (compileYulStep cfg compile) files

/-- `compileYulp` from `compilation.ts`, with discovery, file reading, the
yulp library and the backend supplied as data. -/
def compileYulp (cfg : YulConfig) (yulp : YulpLib)
    (compile : CompilerInput → CompilerOutput) (files : List SourceFile) :
    List Artifact × Option JsError :=
  runPipeline (compileYulpStep cfg yulp compile) files

/-! ## Concrete fixtures

A small backend and yulp library used to exercise the pipeline on concrete
runs. -/

/-- A compiled contract object with creation code, runtime code and debug
data. -/
def sampleContract : ContractObject :=
  { evm :=
      { bytecode := { object := "6001" }
        deployedBytecode := some { object := "6002", functionDebugData := some "add" } } }

/-- A backend output with exactly one contract object under `"Target.yul"`. -/
def goodOutput : CompilerOutput :=
  { contracts := [("Target.yul", [("Target", sampleContract)])], errors := [] }

/-- A backend output reporting zero contract objects under `"Target.yul"`. -/
def emptyOutput : CompilerOutput :=
  { contracts := [("Target.yul", [])], errors := [] }

/-- A sample plugin configuration. -/
def sampleConfig : YulConfig :=
  { version := "0.8.15", yulDetails := "stackAllocation" }

/-- A deterministic backend: source text `"bad"` compiles to zero contract
objects, everything else compiles to `goodOutput`. -/
def sampleBackend : CompilerInput → CompilerOutput :=
  fun input =>
    if (input.sources.map fun s => s.2.content).head? = some "bad" then emptyOutput
    else goodOutput

/-- A deterministic yulp library: the text `"bad parse"` throws a syntax
error; anything else transpiles to itself with one declared function
signature and one declared event topic. -/
def sampleYulp : YulpLib :=
  { compile := fun data =>
      if data = "bad parse" then Except.error (JsError.dialectSyntaxError "unexpected token")
      else Except.ok
        { results := data
          signatures := [{ abi := "sig\"function add()\"" }]
          topics := [{ abi := "topic\"event Done()\"" }] }
    print := fun r => r }

/-- The yulp side table `sampleYulp` produces for the text `"good"`. -/
def sampleYulpSource : YulpCompileResult :=
  { results := "good"
    signatures := [{ abi := "sig\"function add()\"" }]
    topics := [{ abi := "topic\"event Done()\"" }] }

/-- Three discovered yul files; the second one has the text that compiles to
zero contract objects. -/
def fileA : SourceFile := { sourceName := "contracts/A.yul", content := "good" }

/-- The failing middle file of the three-file run. -/
def fileB : SourceFile := { sourceName := "contracts/B.yul", content := "bad" }

/-- The last file of the three-file run, which compiles fine in isolation. -/
def fileC : SourceFile := { sourceName := "contracts/C.yul", content := "good2" }

/-- A discovered yulp file with the text `"good"`. -/
def fileAyulp : SourceFile := { sourceName := "contracts/A.yulp", content := "good" }

/-- The artifact the pipeline synthesizes for `fileA`. -/
def artifactA : Artifact :=
  { _format := "hh-sol-artifact-1"
    contractName := "A"
    sourceName := "contracts/A.yul"
    abi := []
    bytecode := "0x6001"
    deployedBytecode := "0x6002"
    linkReferences := []
    deployedLinkReferences := []
    functionDebugData := some "add" }

/-- A contract object for which the backend omitted the runtime code
object. -/
def noDeployContract : ContractObject :=
  { evm := { bytecode := { object := "6003" }, deployedBytecode := none } }

/-- A backend output whose only contract object has no runtime code. -/
def noDeployOutput : CompilerOutput :=
  { contracts := [("Target.yul", [("Target", noDeployContract)])], errors := [] }

/-! ## Helper lemmas -/

/-- Taking as many elements as a list prepended to another keeps exactly that
list. -/
theorem list_take_len_append (s t : List Char) : (s ++ t).take s.length = s := by
  induction s with
  | nil => simp
  | cons a s ih => simp [ih]

/-- `takeWhile` keeps the whole list when every element satisfies the
predicate. -/
theorem list_takeWhile_all (p : Char → Bool) (l : List Char)
    (h : ∀ c ∈ l, p c = true) : l.takeWhile p = l := by
  induction l with
  | nil => rfl
  | cons a l ih =>
    rw [List.takeWhile_cons, h a (by simp), ih fun c hc => h c (by simp [hc])]
    simp

/-- `takeWhile` stops exactly at the first failing element. -/
theorem list_takeWhile_stop (p : Char → Bool) (s t : List Char) (x : Char)
    (hs : ∀ c ∈ s, p c = true) (hx : p x = false) :
    (s ++ x :: t).takeWhile p = s := by
  induction s with
  | nil => simp [List.takeWhile_cons, hx]
  | cons a s ih =>
    rw [List.cons_append, List.takeWhile_cons, hs a (by simp),
      ih fun c hc => hs c (by simp [hc])]
    simp

/-- `dropWhile` drops exactly up to the first failing element. -/
theorem list_dropWhile_stop (p : Char → Bool) (s t : List Char) (x : Char)
    (hs : ∀ c ∈ s, p c = true) (hx : p x = false) :
    (s ++ x :: t).dropWhile p = x :: t := by
  induction s with
  | nil => simp [List.dropWhile_cons, hx]
  | cons a s ih =>
    rw [List.cons_append, List.dropWhile_cons, hs a (by simp)]
    exact ih fun c hc => hs c (by simp [hc])

/-- The `takeWhile` prefix is never longer than the list. -/
theorem list_takeWhile_length_le (p : Char → Bool) (l : List Char) :
    (l.takeWhile p).length ≤ l.length := by
  induction l with
  | nil => simp
  | cons a l ih =>
    rw [List.takeWhile_cons]
    cases hpa : p a
    · simp
    · simp only [eq_self_iff_true, if_true, List.length_cons]
      omega

/-- Taking as many elements as the `takeWhile` prefix recovers that prefix. -/
theorem list_take_takeWhile (p : Char → Bool) (l : List Char) :
    l.take (l.takeWhile p).length = l.takeWhile p := by
  induction l with
  | nil => rfl
  | cons a l ih =>
    rw [List.takeWhile_cons]
    by_cases h : p a = true
    · simp [h, ih]
    · simp [h]

/-- `indexOf` returns `-1` exactly as JavaScript does when the character is
absent. -/
theorem jsIndexOfList_of_not_mem (c : Char) (l : List Char) (h : c ∉ l) :
    jsIndexOfList c l = -1 := by
  induction l with
  | nil => rfl
  | cons a l ih =>
    have ha : ¬ a = c := fun e => h (e ▸ List.mem_cons_self a l)
    rw [jsIndexOfList, if_neg ha, ih fun hc => h (List.mem_cons_of_mem a hc)]
    simp

/-- When the character occurs, `indexOf` returns the length of the longest
prefix avoiding it. -/
theorem jsIndexOfList_of_mem (c : Char) (l : List Char) (h : c ∈ l) :
    jsIndexOfList c l = ((l.takeWhile fun a => decide (a ≠ c)).length : Int) := by
  induction l with
  | nil => cases h
  | cons a l ih =>
    by_cases hac : a = c
    · subst hac
      rw [jsIndexOfList, if_pos rfl, List.takeWhile_cons]
      simp
    · have hmem : c ∈ l := by
        cases h with
        | head => exact absurd rfl hac
        | tail _ h2 => exact h2
      rw [jsIndexOfList, if_neg hac, ih hmem, List.takeWhile_cons]
      rw [decide_eq_true hac]
      simp

/-- JavaScript `substring(0, -1)` is empty: the negative end index clamps to
zero. -/
theorem jsSubstring_zero_negOne (s : String) : jsSubstring s 0 (-1) = "" := by
  have h0 : jsClamp s.toList.length 0 = 0 := by unfold jsClamp; omega
  have h1 : jsClamp s.toList.length (-1) = 0 := by unfold jsClamp; omega
  simp [jsSubstring, h0, h1]
  rfl

/-- JavaScript `substring(0, k)` for an in-range natural `k` is the
`k`-element prefix. -/
theorem jsSubstring_zero_nat (s : String) (k : Nat) (h : k ≤ s.toList.length) :
    jsSubstring s 0 (k : Int) = (s.toList.take k).asString := by
  have h0 : jsClamp s.toList.length 0 = 0 := by unfold jsClamp; omega
  have h1 : jsClamp s.toList.length (k : Int) = k := by unfold jsClamp; omega
  have hmin : min 0 k = 0 := by omega
  have hmax : max 0 k = k := by omega
  simp only [jsSubstring]
  rw [h0, h1, hmin, hmax]
  simp

/-- `basename` is the identity on strings without a separator. -/
theorem basename_of_no_slash (s : String) (h : ∀ c ∈ s.toList, c ≠ '/') :
    basename s = s := by
  unfold basename
  rw [list_takeWhile_all _ _ fun c hc => decide_eq_true (h c (List.mem_reverse.mp hc))]
  rw [List.reverse_reverse]
  rfl

/-- Every artifact the per-file loop sinks comes from a successful per-file
step on one of the discovered files. -/
theorem runPipeline_mem (step : SourceFile → Except JsError Artifact)
    (files : List SourceFile) (a : Artifact) (ha : a ∈ (runPipeline step files).1) :
    ∃ f ∈ files, step f = Except.ok a := by
  induction files with
  | nil => simp [runPipeline] at ha
  | cons f rest ih =>
    rw [runPipeline] at ha
    cases hstep : step f with
    | error e => rw [hstep] at ha; simp at ha
    | ok b =>
      rw [hstep] at ha
      simp at ha
      cases ha with
      | inl h2 => exact ⟨f, by simp, by rw [hstep, h2]⟩
      | inr h2 =>
        obtain ⟨g, hg, hgs⟩ := ih h2
        exact ⟨g, by simp [hg], hgs⟩

/-! ## Claims -/

/-- C1: for a sugared-dialect file declaring one function signature and one
event topic, `_compileYulp` does synthesize the two ABI fragments with the
dialect framing stripped at the declared offsets (characters 4..end-1 of a
signature, 6..end-1 of a topic), but `getArtifactFromYulOutput` hardcodes an
empty ABI, so the artifact actually handed to the artifact sink carries zero
fragments instead of two. -/
theorem yulp_abi_synthesized_then_discarded :
    (_compileYulp "contracts/A.yulp" "good" sampleConfig sampleYulp
        sampleBackend).toOption.map (fun y => y.abi) =
      some ["function add()", "event Done()"] ∧
    yulpAbi sampleYulpSource = ["function add()", "event Done()"] ∧
    (compileYulp sampleConfig sampleYulp sampleBackend [fileAyulp]).1.map
      (fun a => a.abi) = [[]] := by decide

/-- C2 counterexample: in the three-file run whose middle file fails to
compile, the last file's per-file step succeeds in isolation, yet the run
sinks only the first file's artifact and terminates with the escaped error —
the failure is not confined to the failing file. -/
theorem run_aborts_on_middle_failure_cex :
    (compileYulStep sampleConfig sampleBackend fileC).toOption.isSome = true ∧
    (compileYul sampleConfig sampleBackend [fileA, fileB, fileC]).1 = [artifactA] ∧
    (compileYul sampleConfig sampleBackend [fileA, fileB, fileC]).2.isSome = true := by
  decide

/-- C2 amended: the per-file loop has no error boundary, so a fatal failure
on one file aborts the remainder of the run: the files before the failing one
are sunk, the error escapes, and the failing file and every file after it
produce nothing; both dialect drivers run this same loop. -/
theorem failure_aborts_remaining_files (step : SourceFile → Except JsError Artifact)
    (cfg : YulConfig) (compile : CompilerInput → CompilerOutput) (yulpLib : YulpLib)
    (pre post : List SourceFile) (f : SourceFile) (e : JsError)
    (hpre : ∀ g ∈ pre, (step g).toOption.isSome = true)
    (hf : step f = Except.error e) :
    runPipeline step (pre ++ f :: post) =
      (pre.filterMap fun g => (step g).toOption, some e) ∧
    compileYul cfg compile (pre ++ f :: post) =
      runPipeline (compileYulStep cfg compile) (pre ++ f :: post) ∧
    compileYulp cfg yulpLib compile (pre ++ f :: post) =
      runPipeline (compileYulpStep cfg yulpLib compile) (pre ++ f :: post) := by
  refine ⟨?_, rfl, rfl⟩
  induction pre with
  | nil => simp [runPipeline, hf]
  | cons g pre ih =>
    have hg := hpre g (by simp)
    cases hstep : step g with
    | error e2 => rw [hstep] at hg; simp [Except.toOption] at hg
    | ok a =>
      have hrest := ih fun g2 hg2 => hpre g2 (by simp [hg2])
      rw [List.cons_append, runPipeline, hstep]
      simp only [hrest, List.filterMap_cons, hstep, Except.toOption]

/-- C2 witness: the amended statement instantiated on the concrete three-file
run. -/
theorem failure_aborts_remaining_files_witness :
    runPipeline (compileYulStep sampleConfig sampleBackend) ([fileA] ++ fileB :: [fileC]) =
      ([fileA].filterMap fun g => (compileYulStep sampleConfig sampleBackend g).toOption,
        some (JsError.typeError "Cannot read properties of undefined (reading evm)")) ∧
    compileYul sampleConfig sampleBackend ([fileA] ++ fileB :: [fileC]) =
      runPipeline (compileYulStep sampleConfig sampleBackend) ([fileA] ++ fileB :: [fileC]) ∧
    compileYulp sampleConfig sampleYulp sampleBackend ([fileA] ++ fileB :: [fileC]) =
      runPipeline (compileYulpStep sampleConfig sampleYulp sampleBackend)
        ([fileA] ++ fileB :: [fileC]) :=
  failure_aborts_remaining_files (compileYulStep sampleConfig sampleBackend) sampleConfig
    sampleBackend sampleYulp [fileA] [fileC] fileB
    (JsError.typeError "Cannot read properties of undefined (reading evm)")
    (by decide) (by decide)

/-- C3 counterexample: when the backend reports zero contract objects under
"Target.yul" the failure is the generic JavaScript TypeError raised by
dereferencing `undefined` — the pipeline defines no distinguished
no-compiled-output error — and it is not fatal to that file only: in a
two-file run whose first file hits the condition, the second file (which
compiles fine in isolation) is never sunk. -/
theorem no_output_generic_type_error_cex :
    selectTargetContract emptyOutput =
      Except.error (JsError.typeError "Cannot read properties of undefined (reading evm)") ∧
    (compileYul sampleConfig sampleBackend [fileB, fileC]).1 = [] ∧
    (compileYulStep sampleConfig sampleBackend fileC).toOption.isSome = true := by decide

/-- C3 amended: artifact synthesis selects the first contract object reported
under "Target.yul"; when the backend reports zero objects for that filename
the step fails with a generic undefined-dereference TypeError, and because the
loop catches nothing, any per-file error ends the run immediately. -/
theorem select_first_contract (out : CompilerOutput) (l : List (String × ContractObject))
    (hl : out.contracts.lookup "Target.yul" = some l) :
    (l = [] → selectTargetContract out =
      Except.error (JsError.typeError "Cannot read properties of undefined (reading evm)")) ∧
    (∀ k c rest, l = (k, c) :: rest → selectTargetContract out = Except.ok c) ∧
    (∀ (step : SourceFile → Except JsError Artifact) f e post,
      step f = Except.error e → runPipeline step (f :: post) = ([], some e)) := by
  refine ⟨?_, ?_, ?_⟩
  · intro h
    subst h
    simp [selectTargetContract, hl]
  · intro k c rest h
    subst h
    simp [selectTargetContract, hl, List.lookup]
  · intro step f e post h
    simp [runPipeline, h]

/-- C3 witness: the amended statement instantiated on the concrete outputs. -/
theorem select_first_contract_witness :
    selectTargetContract goodOutput = Except.ok sampleContract ∧
    runPipeline (compileYulStep sampleConfig sampleBackend) (fileB :: [fileC]) =
      ([], some (JsError.typeError "Cannot read properties of undefined (reading evm)")) :=
  ⟨(select_first_contract goodOutput [("Target", sampleContract)] (by decide)).2.1
      "Target" sampleContract [] rfl,
    (select_first_contract goodOutput [("Target", sampleContract)] (by decide)).2.2
      (compileYulStep sampleConfig sampleBackend) fileB
      (JsError.typeError "Cannot read properties of undefined (reading evm)") [fileC]
      (by decide)⟩

/-- C4: the compiler input sent to the backend is exactly the fixed
descriptor — language "Yul", a single "Target.yul" source entry holding the
base-dialect text (for the sugared dialect, the transpiled text), full output
selection, optimizer enabled with zero runs, and the caller's yulDetails
forwarded verbatim — and the sources map has exactly one entry. -/
theorem compiler_input_descriptor (data yd filename : String) (cfg : YulConfig)
    (compile : CompilerInput → CompilerOutput) (yulpLib : YulpLib) :
    mkCompilerInput data yd =
      { language := "Yul"
        sources := [("Target.yul", { content := data })]
        settings :=
          { outputSelection := [("*", [("*", ["*"]), ("", ["*"])])]
            optimizer :=
              { enabled := true
                runs := 0
                details := { yul := true, yulDetails := yd } } } } ∧
    (mkCompilerInput data yd).sources.length = 1 ∧
    _compileYul filename data cfg compile =
      processYulOutput filename (compile (mkCompilerInput data cfg.yulDetails)) ∧
    (∀ source, yulpLib.compile data = Except.ok source →
      _compileYulp filename data cfg yulpLib compile =
        processYulpOutput filename source
          (compile (mkCompilerInput (yulpLib.print source.results) cfg.yulDetails))) := by
  refine ⟨rfl, rfl, rfl, ?_⟩
  intro source h
  simp [_compileYulp, _compileYulpRun, h]

/-- C4 witness: the descriptor statement instantiated on the concrete yulp
fixture. -/
theorem compiler_input_descriptor_witness :
    _compileYulp "contracts/A.yulp" "good" sampleConfig sampleYulp sampleBackend =
      processYulpOutput "contracts/A.yulp" sampleYulpSource
        (sampleBackend (mkCompilerInput (sampleYulp.print sampleYulpSource.results)
          sampleConfig.yulDetails)) :=
  (compiler_input_descriptor "good" "stackAllocation" "contracts/A.yulp" sampleConfig
    sampleBackend sampleYulp).2.2.2 sampleYulpSource (by decide)

/-- C5: every synthesized artifact's bytecode is exactly "0x" followed by the
selected contract object's executable-code payload, and when the backend
reports no runtime code object for that contract, the artifact's
deployedBytecode is exactly "0x"; this holds on both dialect paths and is
preserved into the artifact handed to the sink. -/
theorem artifact_bytecode_hex_form (sn fn : String) (out : CompilerOutput)
    (c : ContractObject) (source : YulpCompileResult)
    (hsel : selectTargetContract out = Except.ok c) :
    (∀ yout, processYulOutput fn out = Except.ok yout →
      (getArtifactFromYulOutput sn yout).bytecode = "0x" ++ c.evm.bytecode.object ∧
      (c.evm.deployedBytecode = none →
        (getArtifactFromYulOutput sn yout).deployedBytecode = "0x")) ∧
    (∀ yout, processYulpOutput fn source out = Except.ok yout →
      (getArtifactFromYulOutput sn yout).bytecode = "0x" ++ c.evm.bytecode.object ∧
      (c.evm.deployedBytecode = none →
        (getArtifactFromYulOutput sn yout).deployedBytecode = "0x")) := by
  constructor
  · intro yout h
    simp [processYulOutput, hsel] at h
    rw [← h]
    refine ⟨rfl, fun hnone => ?_⟩
    simp [getArtifactFromYulOutput, hnone]
  · intro yout h
    simp [processYulpOutput, hsel] at h
    rw [← h]
    refine ⟨rfl, fun hnone => ?_⟩
    simp [getArtifactFromYulOutput, hnone]

/-- C5 witness: the invariant instantiated on the concrete backend output
whose contract object has no runtime code. -/
theorem artifact_bytecode_hex_form_witness :
    (getArtifactFromYulOutput "contracts/N.yul"
      { sourceName := "contracts/N.yul", abi := [], bytecode := "0x6003",
        deployedBytecode := "0x", functionDebugData := none }).bytecode =
      "0x" ++ noDeployContract.evm.bytecode.object ∧
    (noDeployContract.evm.deployedBytecode = none →
      (getArtifactFromYulOutput "contracts/N.yul"
        { sourceName := "contracts/N.yul", abi := [], bytecode := "0x6003",
          deployedBytecode := "0x", functionDebugData := none }).deployedBytecode = "0x") :=
  (artifact_bytecode_hex_form "contracts/N.yul" "contracts/N.yul" noDeployOutput
    noDeployContract sampleYulpSource (by decide)).1 _ (by decide)

/-- C6 counterexample: for the source path "contracts/Foo.v2.yul" the derived
contract name is "Foo", which is not the basename without its extension,
"Foo.v2" — the code truncates at the first dot of the basename, not at the
extension dot. -/
theorem contract_name_not_basename_without_extension :
    pathToContractName "contracts/Foo.v2.yul" = "Foo" ∧
    basenameWithoutExtension "contracts/Foo.v2.yul" = "Foo.v2" ∧
    pathToContractName "contracts/Foo.v2.yul" ≠
      basenameWithoutExtension "contracts/Foo.v2.yul" := by decide

/-- C6 amended: the derived contract name is the substring of the file's
basename before its first dot, derived from the path alone; for a basename of
the usual stem.ext shape (one dot, as in contracts/Foo.yul) this coincides
with the basename without its extension, and for .../contracts/Foo.yul it is
exactly "Foo". -/
theorem contract_name_stem (stem ext : String)
    (hstem : ∀ c ∈ stem.toList, c ≠ '.' ∧ c ≠ '/')
    (hext : ∀ c ∈ ext.toList, c ≠ '.' ∧ c ≠ '/') :
    pathToContractName (stem ++ "." ++ ext) = stem ∧
    pathToContractName (stem ++ "." ++ ext) = basenameWithoutExtension (stem ++ "." ++ ext) ∧
    pathToContractName "contracts/Foo.yul" = "Foo" := by
  have hl : (stem ++ "." ++ ext).toList = stem.toList ++ '.' :: ext.toList := by
    simp [String.toList]
  have hnoslash : ∀ c ∈ (stem ++ "." ++ ext).toList, c ≠ '/' := by
    rw [hl]
    intro c hc
    rcases List.mem_append.mp hc with h | h
    · exact (hstem c h).2
    · cases h with
      | head => decide
      | tail _ h2 => exact (hext c h2).2
  have hb : basename (stem ++ "." ++ ext) = stem ++ "." ++ ext :=
    basename_of_no_slash _ hnoslash
  have hmem : '.' ∈ (stem ++ "." ++ ext).toList := by rw [hl]; simp
  have hidx : jsIndexOf (stem ++ "." ++ ext) '.' = (stem.toList.length : Int) := by
    rw [jsIndexOf, jsIndexOfList_of_mem _ _ hmem, hl,
      list_takeWhile_stop _ _ _ _ (fun c hc => decide_eq_true (hstem c hc).1) (by decide)]
  have hlen : stem.toList.length ≤ (stem ++ "." ++ ext).toList.length := by
    rw [hl]
    simp
  have hmain : pathToContractName (stem ++ "." ++ ext) = stem := by
    simp only [pathToContractName]
    rw [hb, hidx, jsSubstring_zero_nat _ _ hlen, hl, list_take_len_append]
    rfl
  have hrev : (stem.toList ++ '.' :: ext.toList).reverse =
      ext.toList.reverse ++ '.' :: stem.toList.reverse := by
    simp
  have hbwe : basenameWithoutExtension (stem ++ "." ++ ext) = stem := by
    simp only [basenameWithoutExtension]
    rw [hb, hl, if_pos (by simp), hrev,
      list_dropWhile_stop _ _ _ _
        (fun c hc => decide_eq_true (hext c (List.mem_reverse.mp hc)).1) (by decide)]
    simp only [List.tail_cons, List.reverse_reverse]
    rfl
  exact ⟨hmain, hmain.trans hbwe.symm, by decide⟩

/-- C6 witness: the amended statement instantiated at stem "Foo" and
extension "yul". -/
theorem contract_name_stem_witness :
    pathToContractName ("Foo" ++ "." ++ "yul") = "Foo" ∧
    pathToContractName ("Foo" ++ "." ++ "yul") =
      basenameWithoutExtension ("Foo" ++ "." ++ "yul") ∧
    pathToContractName "contracts/Foo.yul" = "Foo" :=
  contract_name_stem "Foo" "yul" (by decide) (by decide)

/-- C7: diagnostic reporting classifies every entry by severity — a
"warning" entry is rendered as a warning line at its position, every other
entry as an error line — and reporting never stops the pipeline: both output
interpreters ignore the diagnostics entirely, a usable contract object still
yields a successful result, and a successful per-file step's artifact is
handed to the sink. -/
theorem diagnostics_classified_and_nonfatal (filename : String)
    (errors : List SolcDiagnosticEntry)
    (contracts : List (String × List (String × ContractObject)))
    (es es2 : List SolcDiagnosticEntry) (fn : String) (out : CompilerOutput)
    (c : ContractObject) (source : YulpCompileResult)
    (hsel : selectTargetContract out = Except.ok c) :
    (checkCompilationErrors filename errors).length = errors.length ∧
    (∀ (i : Nat) (e : SolcDiagnosticEntry), errors[i]? = some e →
      (checkCompilationErrors filename errors)[i]? = some
        (if e.severity = "warning" then
          DiagnosticReport.warnReport
            ("hardhat-yul: warning compiling " ++ filename ++ ":\n" ++ e.formattedMessage)
        else
          DiagnosticReport.errorReport
            ("hardhat-yul: error compiling " ++ filename ++ ":\n" ++ e.formattedMessage))) ∧
    processYulOutput fn { contracts := contracts, errors := es } =
      processYulOutput fn { contracts := contracts, errors := es2 } ∧
    processYulpOutput fn source { contracts := contracts, errors := es } =
      processYulpOutput fn source { contracts := contracts, errors := es2 } ∧
    (processYulOutput fn out).toOption.isSome = true ∧
    (∀ (cfg : YulConfig) (compile : CompilerInput → CompilerOutput) f a rest,
      compileYulStep cfg compile f = Except.ok a →
      a ∈ (compileYul cfg compile (f :: rest)).1) := by
  refine ⟨by simp [checkCompilationErrors], ?_, rfl, rfl, ?_, ?_⟩
  · intro i e h
    simp only [checkCompilationErrors, List.getElem?_map, h, Option.map_some]
    by_cases hc : e.severity = "warning" <;> simp [hc]
  · simp [processYulOutput, hsel, Except.toOption]
  · intro cfg compile f a rest h
    simp [compileYul, runPipeline, h]

/-- C7 witness: the classification and non-fatality statement instantiated
on a concrete warning-only diagnostics list and the concrete good run. -/
theorem diagnostics_classified_and_nonfatal_witness :
    (checkCompilationErrors "contracts/A.yul"
        [{ severity := "warning", formattedMessage := "w" }]).length = 1 ∧
    (checkCompilationErrors "contracts/A.yul"
        [{ severity := "warning", formattedMessage := "w" }])[0]? =
      some (DiagnosticReport.warnReport
        ("hardhat-yul: warning compiling " ++ "contracts/A.yul" ++ ":\n" ++ "w")) ∧
    (processYulOutput "f" goodOutput).toOption.isSome = true ∧
    artifactA ∈ (compileYul sampleConfig sampleBackend (fileA :: [fileB])).1 := by
  have h := diagnostics_classified_and_nonfatal "contracts/A.yul"
    [{ severity := "warning", formattedMessage := "w" }] goodOutput.contracts [] []
    "f" goodOutput sampleContract sampleYulpSource (by decide)
  refine ⟨h.1, ?_, h.2.2.2.2.1, h.2.2.2.2.2 sampleConfig sampleBackend fileA artifactA
    [fileB] (by decide)⟩
  have h2 := h.2.1 0 { severity := "warning", formattedMessage := "w" } rfl
  simpa using h2

/-- C8: every artifact handed to the artifact sink — on either dialect path —
has format tag exactly "hh-sol-artifact-1", carries the contractName,
sourceName, abi, bytecode, deployedBytecode and link-reference fields, its
two link-reference maps are exactly empty, and its contract name is derived
from its source name. -/
theorem artifact_record_shape (cfg : YulConfig)
    (compile : CompilerInput → CompilerOutput) (yulpLib : YulpLib)
    (files : List SourceFile) :
    (∀ a ∈ (compileYul cfg compile files).1,
      a._format = "hh-sol-artifact-1" ∧ a.linkReferences = [] ∧
      a.deployedLinkReferences = [] ∧ a.contractName = pathToContractName a.sourceName) ∧
    (∀ a ∈ (compileYulp cfg yulpLib compile files).1,
      a._format = "hh-sol-artifact-1" ∧ a.linkReferences = [] ∧
      a.deployedLinkReferences = [] ∧ a.contractName = pathToContractName a.sourceName) := by
  constructor
  · intro a ha
    unfold compileYul at ha
    obtain ⟨f, hf, hs⟩ := runPipeline_mem _ files a ha
    rw [compileYulStep] at hs
    cases h2 : _compileYul f.sourceName f.content cfg compile with
    | error e => rw [h2] at hs; simp [Except.map] at hs
    | ok y =>
      rw [h2] at hs
      simp [Except.map] at hs
      rw [← hs]
      exact ⟨rfl, rfl, rfl, rfl⟩
  · intro a ha
    unfold compileYulp at ha
    obtain ⟨f, hf, hs⟩ := runPipeline_mem _ files a ha
    rw [compileYulpStep] at hs
    cases h2 : _compileYulp f.sourceName f.content cfg yulpLib compile with
    | error e => rw [h2] at hs; simp [Except.map] at hs
    | ok y =>
      rw [h2] at hs
      simp [Except.map] at hs
      rw [← hs]
      exact ⟨rfl, rfl, rfl, rfl⟩

/-- C8 witness: the record-shape statement instantiated on the artifact the
concrete one-file run sinks. -/
theorem artifact_record_shape_witness :
    artifactA._format = "hh-sol-artifact-1" ∧ artifactA.linkReferences = [] ∧
    artifactA.deployedLinkReferences = [] ∧
    artifactA.contractName = pathToContractName artifactA.sourceName :=
  (artifact_record_shape sampleConfig sampleBackend sampleYulp [fileA]).1 artifactA
    (by decide)

/-- C9 counterexample: the backend output used by the yulp run carries
function debug data for the selected contract object, yet the artifact the
sugared-dialect run hands to the sink has none — the yulp path drops debug
data rather than carrying it through. -/
theorem yulp_debug_data_dropped :
    sampleContract.evm.deployedBytecode.bind (fun d => d.functionDebugData) = some "add" ∧
    (compileYulp sampleConfig sampleYulp sampleBackend [fileAyulp]).1.map
      (fun a => a.functionDebugData) = [none] := by decide

/-- C9 amended: only the base-dialect path carries the backend's function
debug data (read from the runtime-code object) through to the sunk artifact
unmodified; the sugared-dialect path never sets the field, even when the
backend supplied debug data. -/
theorem debug_data_base_dialect_only (fn sn : String) (out : CompilerOutput)
    (c : ContractObject) (source : YulpCompileResult)
    (hsel : selectTargetContract out = Except.ok c) :
    (∀ yout, processYulOutput fn out = Except.ok yout →
      (getArtifactFromYulOutput sn yout).functionDebugData =
        c.evm.deployedBytecode.bind fun d => d.functionDebugData) ∧
    (∀ yout, processYulpOutput fn source out = Except.ok yout →
      (getArtifactFromYulOutput sn yout).functionDebugData = none) := by
  constructor
  · intro yout h
    simp [processYulOutput, hsel] at h
    rw [← h]
    rfl
  · intro yout h
    simp [processYulpOutput, hsel] at h
    rw [← h]
    rfl

/-- C9 witness: the amended statement instantiated on the concrete backend
output carrying debug data. -/
theorem debug_data_base_dialect_only_witness :
    (getArtifactFromYulOutput "contracts/A.yul"
      { sourceName := "contracts/A.yul", abi := [], bytecode := "0x6001",
        deployedBytecode := "0x6002",
        functionDebugData := some "add" }).functionDebugData =
      (sampleContract.evm.deployedBytecode.bind fun d => d.functionDebugData) ∧
    (getArtifactFromYulOutput "contracts/A.yulp"
      { sourceName := "contracts/A.yulp", abi := yulpAbi sampleYulpSource,
        bytecode := "0x6001", deployedBytecode := "0x6002",
        functionDebugData := none }).functionDebugData = none :=
  ⟨(debug_data_base_dialect_only "contracts/A.yul" "contracts/A.yul" goodOutput
      sampleContract sampleYulpSource (by decide)).1 _ (by decide),
    (debug_data_base_dialect_only "contracts/A.yulp" "contracts/A.yulp" goodOutput
      sampleContract sampleYulpSource (by decide)).2 _ (by decide)⟩

/-- C10: contract-name derivation truncates the basename at its first dot,
not its last: the name is the longest dot-free prefix of the basename when
the basename contains a dot (so "contracts/Foo.v2.yul" gives "Foo", not
"Foo.v2"), and the empty string when the basename contains no dot at all. -/
theorem contract_name_first_dot (file : String) :
    pathToContractName file =
      (if '.' ∈ (basename file).toList
       then (basename file).toList.takeWhile fun c => decide (c ≠ '.')
       else []).asString ∧
    pathToContractName "contracts/Foo.v2.yul" = "Foo" ∧
    pathToContractName "contracts/Makefile" = "" := by
  refine ⟨?_, by decide, by decide⟩
  by_cases hmem : '.' ∈ (basename file).toList
  · rw [if_pos hmem]
    simp only [pathToContractName, jsIndexOf]
    rw [jsIndexOfList_of_mem _ _ hmem,
      jsSubstring_zero_nat _ _ (list_takeWhile_length_le _ _), list_take_takeWhile]
  · rw [if_neg hmem]
    simp only [pathToContractName, jsIndexOf]
    rw [jsIndexOfList_of_not_mem _ _ hmem, jsSubstring_zero_negOne]
    rfl

end HardhatYul
